import Mathlib

/-!
Verification of the four-stage clinical-trials drug-extraction pipeline
(`epoch.py`): `match_drug_names`, `match_usan_codes`,
`counts_of_trials_by_usan_class`, `agg_counts_of_usan_pairs`.

The embedding is a shallow translation of the pandas code into pure
functions over lists of records.  Points where library behaviour matters
are modelled explicitly:

* `pandas.Series.str.contains(pat)` uses `re.search`, i.e. interprets the
  token as a regular expression.  We embed a Brzozowski-derivative matcher
  for the fragment of Python regex syntax made of literal characters,
  `.`, `*`, `+`, `?` and `|`; the remaining metacharacters (groups,
  classes, escapes, anchors) are modelled as compile errors, which the
  source's bare `except:` turns into "no match".  A pattern error is
  `none`; a successful search is `some true` / `some false`.
* Python exceptions caught by the source are modelled as `Option.none`
  flowing into the catch position; uncaught exceptions make the whole
  stage return `none`.
* `list(set(...))` enumerates a Python set in an order that depends on
  string-hash randomisation, which changes between interpreter runs.  The
  stages that use it therefore take the enumeration as an explicit
  function parameter, constrained only by `IsSetListFn` (duplicate-free,
  same membership) - exactly what Python guarantees.
* `DataFrame.sort_values('tcount', ascending=False)` uses numpy's default
  quicksort, which is not stable; the stage takes the sorting function as
  a parameter constrained by `IsDescSortFn` (a permutation, sorted by
  descending count) - exactly what pandas guarantees.
-/

/-! ## A model of Python `re.search` on a fragment of regex syntax -/

/-- Regular expressions: empty language, empty string, a literal
character, the wildcard `.`, concatenation, alternation and Kleene star. -/
inductive Regex where
  | emp : Regex
  | eps : Regex
  | chr : Char → Regex
  | any : Regex
  | seq : Regex → Regex → Regex
  | alt : Regex → Regex → Regex
  | star : Regex → Regex
deriving DecidableEq

/-- Does the regex accept the empty string? -/
def nullable : Regex → Bool
  | .emp => false
  | .eps => true
  | .chr _ => false
  | .any => false
  | .seq a b => nullable a && nullable b
  | .alt a b => nullable a || nullable b
  | .star _ => true

/-- Brzozowski derivative of a regex by one character. -/
def rderiv : Regex → Char → Regex
  | .emp, _ => .emp
  | .eps, _ => .emp
  | .chr c, d => if d = c then .eps else .emp
  | .any, _ => .eps
  | .seq a b, d => if nullable a then .alt (.seq (rderiv a d) b) (rderiv b d)
                   else .seq (rderiv a d) b
  | .alt a b, d => .alt (rderiv a d) (rderiv b d)
  | .star a, d => .seq (rderiv a d) (.star a)

/-- Does some prefix of `s` (possibly empty) match `r`? -/
def mstart (r : Regex) : List Char → Bool
  | [] => nullable r
  | c :: cs => nullable r || mstart (rderiv r c) cs

/-- Python `re.search`: does `r` match starting at some position of `s`? -/
def rsearch (r : Regex) : List Char → Bool
  | [] => mstart r []
  | c :: cs => mstart r (c :: cs) || rsearch r cs

/-- The characters of the modelled regex fragment that are not plain
literals.  `(`, `)`, `[`, backslash, `^` and `$` are outside the
fragment and are treated as pattern-compile errors. -/
def metachars : List Char :=
  ['.', '*', '+', '?', '|', '(', ')', '[', Char.ofNat 92, '^', '$']

/-- What the previous pattern character was, for quantifier placement. -/
inductive LK where
  | start : LK
  | atom : LK
  | rep : LK
  | lazy : LK

/-- Parser state: finished alternatives, the current alternative's atoms
in reverse order, and the kind of the last item. -/
structure PSt where
  alts : List Regex
  cur : List Regex
  lk : LK

/-- Concatenation of a list of regexes. -/
def concatList : List Regex → Regex
  | [] => Regex.eps
  | r :: rs => Regex.seq r (concatList rs)

/-- Alternation of a list of regexes. -/
def altList : List Regex → Regex
  | [] => Regex.emp
  | [r] => r
  | r :: rs => Regex.alt r (altList rs)

/-- Attach a quantifier to the preceding atom; fails like Python's
`nothing to repeat` / `multiple repeat` errors otherwise. -/
def repStep (st : PSt) (f : Regex → Regex) : Option PSt :=
  match st.lk, st.cur with
  | LK.atom, a :: rest => some ⟨st.alts, f a :: rest, LK.rep⟩
  | _, _ => none

/-- One step of the pattern parser. -/
def pstep (st : PSt) (c : Char) : Option PSt :=
  if c = '.' then some ⟨st.alts, Regex.any :: st.cur, LK.atom⟩
  else if c = '*' then repStep st (fun a => Regex.star a)
  else if c = '+' then repStep st (fun a => Regex.seq a (Regex.star a))
  else if c = '?' then
    match st.lk, st.cur with
    | LK.atom, a :: rest => some ⟨st.alts, Regex.alt a Regex.eps :: rest, LK.rep⟩
    | LK.rep, cur => some ⟨st.alts, cur, LK.lazy⟩
    | _, _ => none
  else if c = '|' then some ⟨concatList st.cur.reverse :: st.alts, [], LK.start⟩
  else if c = '(' ∨ c = ')' ∨ c = '[' ∨ c = Char.ofNat 92 ∨ c = '^' ∨ c = '$' then none
  else some ⟨st.alts, Regex.chr c :: st.cur, LK.atom⟩

/-- Close the parser state into a regex. -/
def finishP (st : PSt) : Regex :=
  altList ((concatList st.cur.reverse :: st.alts).reverse)

/-- Run the parser over the pattern characters. -/
def parseCore : List Char → PSt → Option Regex
  | [], st => some (finishP st)
  | c :: cs, st =>
    match pstep st c with
    | none => none
    | some st2 => parseCore cs st2

/-- Compile a Python pattern string (as characters); `none` models
`re.error`. -/
def parsePat (cs : List Char) : Option Regex :=
  parseCore cs ⟨[], [], LK.start⟩

/-- `series.str.contains(pat)` on one cell: `none` models a raised
`re.error`, otherwise whether the compiled pattern matches somewhere in
`s`. -/
def strContains (pat s : String) : Option Bool :=
  (parsePat pat.data).map (fun r => rsearch r s.data)

/-! ## Stage 1: `match_drug_names` -/

/-- One row of the clinical-trials frame.  `Drugs` is the column the
source writes into (`none` models the cell being absent / NaN). -/
structure TrialRow where
  nct_id : String
  intervention_type : String
  intervention_name : String
  Drugs : Option String
deriving DecidableEq

/-- One row of the drugs vocabulary (`drugs.csv`). -/
structure DrugRow where
  itemLabel : String
  altLabel_list : String
deriving DecidableEq

/-- One record of the stage-1 output artifact
(`matched_drug_names.json`). -/
structure MatchedDrugs where
  nct_id : String
  drugs : List String
deriving DecidableEq

/-- The stop-word tuple of the source, transcribed verbatim
(duplicates included). -/
def ignore_set : List String :=
  ["(seizure", "prevention)", "stimulating", "hormone", "(control)", "-", "target",
   "controlled", "infusion", "system", "(limited)", "placebo", "sugar", "pill", "4%",
   "gel", "application", "with", "sham", "microneedle", "device", "microneedle-facilitated",
   "application", "vein", "soak", "treated", "with", "lactated", "ringers", "solution",
   "hormone-related", "protein", "and", "2nd", "phase", "toxin", "type-a", "leaves", "5%",
   "hydrochloride", "continuation", "omission", "1000mg", "2000mg", "250", "mg", "500mg",
   "50", "iv", "oral", "antiplatelet", "regimen", "modification", "or", "methyl", "recombinant",
   "human", "erythropoietin", "cd", "2", "administration", "withdrawal", "of", "high-dose",
   "regimens", "use", "0.03%", "topical", "observational", "antifungal", "therapy", "tissue",
   "plasminogen", "activator", "normal", "saline", "adoptive", "immunotherapy", "single",
   "bolus", "of", "a", "treatment", "m,", "reduced", "nicotine", "content", "cigarettes", "usual",
   "patch", "plus", "gum/lozenge", "acid", "100", "200", "cream", "0.3", "%", "without", "active",
   "substance", "15%", "inactivated", "trivalent", "influenza", "vaccine", "orally", "everyday",
   "hpv", "vaccine", "therapy.", "(identical", "volume", "of", "normal", "saline)", "0.9%", "sodium",
   "chloride", "injectable", "1", "gram", "grams", "target-controlled", "anticoagulant", "by",
   "physician", "criteria", "spray", "nasal", "95%", "pure", "capsules", "200mg", "tablet", "group",
   "adjuvant", "perioperative", "(1-36)", "fumarate", "disoproxil", "citrate", "s-1", "plus"]

/-- The stop words as character lists, the form tokens take. -/
def ignoreL : List (List Char) := ignore_set.map String.data

/-- Python `str.split(sep)` with a single-space separator: empty pieces
are kept, and splitting the empty string yields one empty piece. -/
def splitSp : List Char → List (List Char)
  | [] => [[]]
  | c :: cs =>
    if c = ' ' then [] :: splitSp cs
    else
      match splitSp cs with
      | t :: ts => (c :: t) :: ts
      | [] => [[c]]

/-- The tokens the source iterates over: split the intervention name on
single spaces and drop stop words. -/
def tokensOf (name : String) : List (List Char) :=
  (splitSp name.data).filter (fun t => ¬ t ∈ ignoreL)

/-- One token lookup,
`drugs[drugs.altLabel_list.str.contains(j)]['itemLabel'].values[-1]`:
compile the token as a regex (a compile error is `none`), keep the
vocabulary rows whose alt-label text it matches, and take the *last*
such row's canonical name; an empty selection (`values[-1]` raising
`IndexError`) is also `none`.  Both `none` cases land in the source's
bare `except: pass`. -/
def lookupToken (drugs : List DrugRow) (tok : List Char) : Option String :=
  match parsePat tok with
  | none => none
  | some r =>
    ((drugs.filter (fun d => rsearch r d.altLabel_list.data)).getLast?).map
      DrugRow.itemLabel

/-- The per-trial loop body: the `lisst` accumulated for one
intervention name. -/
def matchTokens (drugs : List DrugRow) (name : String) : List String :=
  (tokensOf name).filterMap (lookupToken drugs)

/-- The single-quote character, used by Python `str` of a string list. -/
def sqc : Char := Char.ofNat 39

/-- Python `repr` of one string (no escaping needed for the fragment we
render). -/
def pyQuote (s : String) : String := ⟨sqc :: s.data ++ [sqc]⟩

/-- The comma-space separated inside of Python `str` of a list. -/
def pyInner : List String → List Char
  | [] => []
  | [x] => (pyQuote x).data
  | x :: xs => (pyQuote x).data ++ (", ".data) ++ pyInner xs

/-- Python `str()` of a list of strings, e.g. `str(['a', 'b'])`. -/
def pyStrList (xs : List String) : String :=
  ⟨'[' :: pyInner xs ++ [']']⟩

/-- `clinical_trials.loc[i, 'Drugs'] = str(lisst)`: rows whose
`intervention_type` is `'Drug'` get the rendered match list written into
their `Drugs` cell; other rows are untouched. -/
def writeDrugs (drugs : List DrugRow) (t : TrialRow) : TrialRow :=
  if t.intervention_type = "Drug" then
    { t with Drugs := some (pyStrList (matchTokens drugs t.intervention_name)) }
  else t

/-- The state of the caller's `clinical_trials` frame after
`match_drug_names` ran: the source mutates it in place. -/
def match_drug_names_table (clinical_trials : List TrialRow)
    (drugs : List DrugRow) : List TrialRow :=
  clinical_trials.map (writeDrugs drugs)

/-- The stage-1 output artifact.  The source renders each match list
with `str` and parses it back with `literal_eval`, which is the identity
on lists of strings, so the records carry the match list itself. -/
def match_drug_names (clinical_trials : List TrialRow)
    (drugs : List DrugRow) : List MatchedDrugs :=
  (((match_drug_names_table clinical_trials drugs).filter
        (fun t => t.intervention_type = "Drug")).filter
      (fun t => ¬ t.Drugs = some "[]")).map
    (fun t => ⟨t.nct_id, matchTokens drugs t.intervention_name⟩)

/-- ASCII lower-casing of one character, the fragment of `str.lower`
exercised here. -/
def lowerChar (c : Char) : Char :=
  if 65 ≤ c.toNat ∧ c.toNat ≤ 90 then Char.ofNat (c.toNat + 32) else c

/-- `str.lower` on a whole string. -/
def pyLower (s : String) : String := ⟨s.data.map lowerChar⟩

/-- The `__main__` preprocessing of a trial row:
`clinical_trials.intervention_name.str.lower()`. -/
def preprocTrial (t : TrialRow) : TrialRow :=
  { t with intervention_name := pyLower t.intervention_name }

/-- The `__main__` preprocessing of a vocabulary row: lower-case the
alt-label list, then append `'|' + itemLabel` (the canonical name keeps
its original case). -/
def preprocDrug (d : DrugRow) : DrugRow :=
  { d with altLabel_list := pyLower d.altLabel_list ++ "|" ++ d.itemLabel }

/-- Stage 1 as invoked by `__main__`, preprocessing included. -/
def mainStage1 (clinical_trials : List TrialRow) (drugs : List DrugRow) :
    List MatchedDrugs :=
  match_drug_names (clinical_trials.map preprocTrial) (drugs.map preprocDrug)

/-! ## Stage 2: `match_usan_codes` -/

/-- One row of `usan_stems.csv`; any field may be NaN (`none`). -/
structure StemRow where
  stem : Option String
  name : Option String
  definition : Option String
deriving DecidableEq

/-- One resolved `{description, type}` record.  The description is the
`definition` cell of the looked-up row, which may be NaN. -/
structure UsanCode where
  description : Option String
  type : String
deriving DecidableEq

/-- One record of the stage-2 output artifact (`drugs_usan.json`). -/
structure DrugUsan where
  drug : String
  usan_codes : List UsanCode
deriving DecidableEq

/-- Python `str.strip('-')`: drop every leading and trailing hyphen. -/
def stripHyphens (s : String) : String :=
  ⟨List.dropWhile (fun c => c = '-') ((List.dropWhile (fun c => c = '-') s.data.reverse).reverse)⟩

/-- `usan_stems.stem.str.strip('-').dropna()`: the stem patterns tested
against each drug name, in table order. -/
def strippedStems (usan_stems : List StemRow) : List String :=
  (usan_stems.filterMap StemRow.stem).map stripHyphens

/-- `series.str.endswith(x) == True` on an optional cell: NaN compares
unequal to `True`. -/
def optEndsWith (cell : Option String) (x : String) : Bool :=
  match cell with
  | none => false
  | some s => x.data.isSuffixOf s.data

/-- `series.str.startswith(x) == True` on an optional cell. -/
def optStartsWith (cell : Option String) (x : String) : Bool :=
  match cell with
  | none => false
  | some s => x.data.isPrefixOf s.data

/-- The source's nested-`try` fallback `description(i)`: first a row
whose `name` ends with the stem (`type='class'`), else a row whose
`name` starts with it (`type='class'`), else a row whose `stem` column
ends with it (`type='subclass'`).  `none` models the final lookup also
raising `IndexError`, which the source does not catch. -/
def description (usan_stems : List StemRow) (i : String) : Option UsanCode :=
  match (usan_stems.filter (fun x => optEndsWith x.name i)).head? with
  | some row => some ⟨row.definition, "class"⟩
  | none =>
    match (usan_stems.filter (fun x => optStartsWith x.name i)).head? with
    | some row => some ⟨row.definition, "class"⟩
    | none =>
      ((usan_stems.filter (fun x => optEndsWith x.stem i)).head?).map
        (fun row => UsanCode.mk row.definition "subclass")

/-- The stems whose pattern matches inside the drug name (the `True`
columns of the row), assuming none of the patterns failed to compile. -/
def matchedStems (stems : List String) (d : String) : List String :=
  stems.filter (fun i => strContains i d = some true)

/-- A function enumerating a Python set as a list: duplicate-free and
with exactly the membership of its input.  Which *order* it produces is
not constrained: for strings it depends on hash randomisation, which
changes between interpreter runs. -/
def IsSetListFn {α : Type} (enum : List α → List α) : Prop :=
  ∀ xs, (enum xs).Nodup ∧ ∀ a, a ∈ enum xs ↔ a ∈ xs

/-- Stage 2.  `enum` models `list(set(...))` over the flattened drug
lists.  The result is `none` when the source would raise: an empty drugs
list or stem table (`drugs_usan[0]` / `pd.concat` of nothing), a stem
pattern that does not compile (`str.contains` raising during the
column build), or `description` failing all three lookups. -/
def match_usan_codes (enum : List String → List String)
    (drug_names : List MatchedDrugs) (usan_stems : List StemRow) :
    Option (List DrugUsan) :=
  let stems := strippedStems usan_stems
  let drugs_list := enum ((drug_names.map MatchedDrugs.drugs).flatten)
  if drugs_list.isEmpty ∨ stems.isEmpty then none
  else if drugs_list.any (fun d => stems.any (fun i => (strContains i d).isNone)) then none
  else if drugs_list.any (fun d =>
      (matchedStems stems d).any (fun i => (description usan_stems i).isNone)) then none
  else
    some ((drugs_list.filter (fun d => ¬ (matchedStems stems d).isEmpty)).map
      (fun d => ⟨d, (matchedStems stems d).filterMap (description usan_stems)⟩))

/-! ## Stage 4: `agg_counts_of_usan_pairs` -/

/-- One record of the stage-3 artifact (`trials_by_usan.json`), as
stage 4 reads it: a description, a type and the list of trial ids. -/
structure Stage3Record where
  description : String
  type : String
  trials : List String
deriving DecidableEq

/-- One record of the stage-4 artifact (`counts_of_usan_pairs.json`). -/
structure ClassPairCount where
  description_1 : String
  description_2 : String
  trial_count : Nat
deriving DecidableEq

/-- `drop_duplicates` / dict-like first-occurrence deduplication:
keep the first copy of each element. -/
def dedupFirstAux {α : Type} [DecidableEq α] (seen : List α) : List α → List α
  | [] => []
  | a :: l =>
    if a ∈ seen then dedupFirstAux seen l
    else a :: dedupFirstAux (a :: seen) l

/-- Deduplicate keeping first occurrences (pandas `drop_duplicates`,
and one admissible enumeration of a Python set). -/
def dedupFirst {α : Type} [DecidableEq α] (l : List α) : List α :=
  dedupFirstAux [] l

/-- Lexicographic comparison of strings by code point, the order Python
uses for `str`. -/
def lexLe : List Char → List Char → Bool
  | [], _ => true
  | _ :: _, [] => false
  | a :: as, b :: bs => if a = b then lexLe as bs else decide (a.toNat < b.toNat)

/-- Python `sorted` / the ascending key order of `groupby`. -/
def sortAsc (l : List String) : List String :=
  List.insertionSort (fun a b => lexLe a.data b.data) l

/-- `itertools.combinations(l, 2)`: ordered pairs of positions `i < j`. -/
def combinations2 {α : Type} : List α → List (α × α)
  | [] => []
  | a :: l => (l.map (fun b => (a, b))) ++ combinations2 l

/-- `Counter(xs).items()`: keys in first-insertion order, with their
multiplicities. -/
def counterItems {α : Type} [DecidableEq α] (xs : List α) : List (α × Nat) :=
  (dedupFirst xs).map (fun a => (a, xs.count a))

/-- What `sort_values('tcount', ascending=False)` guarantees: the output
is a permutation of the input, sorted by descending count.  The default
`kind='quicksort'` is *not* stable, so nothing more is guaranteed about
the relative order of rows with equal counts. -/
def IsDescSortFn (f : List ((String × String) × Nat) → List ((String × String) × Nat)) : Prop :=
  ∀ xs, (f xs).Perm xs ∧
    List.Sorted (fun a b : (String × String) × Nat => b.2 ≤ a.2) (f xs)

/-- One admissible implementation of the descending sort (stable, since
insertion sort is). -/
def sortDescPairs (xs : List ((String × String) × Nat)) :
    List ((String × String) × Nat) :=
  List.insertionSort (fun a b => b.2 ≤ a.2) xs

/-- Stage 4.  The source first does `.astype(str)`, which renders the
`trials` *list* of every record as its Python string (`pyStrList`); the
subsequent `.explode('trials')` therefore receives scalar strings and
leaves every row unchanged, so `groupby(['trials'])` groups by the whole
rendered trial-list string.  Groups come in ascending key order; inside
each group the class descriptions are sorted, paired with
`combinations`, and passed through `list(set(...))` (the `enum`
parameter).  The flattened pair list is counted by `Counter` (keys in
first-insertion order) and sorted by the `sortImpl` parameter.  `none`
models the crash when no class rows survive (`Counter(0)` raising after
an empty Series sums to `0`). -/
def agg_counts_of_usan_pairs
    (enum : List (String × String) → List (String × String))
    (sortImpl : List ((String × String) × Nat) → List ((String × String) × Nat))
    (trials_by_usan : List Stage3Record) : Option (List ClassPairCount) :=
  let t :=
    ((trials_by_usan.filter (fun r => r.type = "class")).map
      (fun r => (r.description, pyStrList r.trials)))
  let t3 := dedupFirst t
  if t3.isEmpty then none
  else
    let keys := sortAsc (dedupFirst (t3.map Prod.snd))
    let pairs := (keys.map (fun k =>
        enum (combinations2
          (sortAsc ((t3.filter (fun rc => rc.2 = k)).map Prod.fst))))).flatten
    let paired_count := counterItems pairs
    some ((sortImpl paired_count).map
      (fun pc => ⟨pc.1.1, pc.1.2, pc.2⟩))

/-! ## Regex lemmas: literal patterns are substring containment -/

/-- The empty pattern matches every string (at position 0). -/
theorem rsearch_eps (l : List Char) : rsearch Regex.eps l = true := by
  cases l with
  | nil => rfl
  | cons c cs => simp [rsearch, mstart, nullable]

/-- `mstart` distributes over alternation. -/
theorem mstart_alt (s : List Char) (a b : Regex) :
    mstart (Regex.alt a b) s = (mstart a s || mstart b s) := by
  induction s generalizing a b with
  | nil => simp [mstart, nullable]
  | cons c cs ih =>
    simp only [mstart, nullable, rderiv, ih]
    cases nullable a <;> cases nullable b <;>
      cases mstart (rderiv a c) cs <;> cases mstart (rderiv b c) cs <;> rfl

/-- A sequence headed by the empty language matches nothing. -/
theorem mstart_seq_emp (s : List Char) (r : Regex) :
    mstart (Regex.seq Regex.emp r) s = false := by
  induction s generalizing r with
  | nil => rfl
  | cons c cs ih => simpa [mstart, nullable, rderiv] using ih r

/-- A sequence headed by the empty string behaves like its tail. -/
theorem mstart_seq_eps (s : List Char) (r : Regex) :
    mstart (Regex.seq Regex.eps r) s = mstart r s := by
  induction s generalizing r with
  | nil => simp [mstart, nullable]
  | cons c cs ih =>
    simp [mstart, nullable, rderiv, mstart_alt, mstart_seq_emp]

/-- `mstart` on the concatenation of literal characters is prefix
testing. -/
theorem mstart_lit (w s : List Char) :
    mstart (concatList (w.map Regex.chr)) s = true ↔ w <+: s := by
  induction w generalizing s with
  | nil =>
    constructor
    · intro _; exact List.nil_prefix
    · intro _
      cases s with
      | nil => rfl
      | cons c cs => simp [concatList, mstart, nullable]
  | cons a w ih =>
    cases s with
    | nil =>
      simp [concatList, mstart, nullable]
    | cons c cs =>
      have e1 : mstart (concatList ((a :: w).map Regex.chr)) (c :: cs)
          = mstart (Regex.seq (if c = a then Regex.eps else Regex.emp)
              (concatList (w.map Regex.chr))) cs := rfl
      rw [e1]
      by_cases hac : c = a
      · subst hac
        rw [if_pos rfl, mstart_seq_eps, ih]
        simp [List.cons_prefix_cons]
      · rw [if_neg hac, mstart_seq_emp]
        simp only [Bool.false_eq_true, false_iff, List.cons_prefix_cons, not_and]
        intro h
        exact absurd h.symm hac

/-- `rsearch` on the concatenation of literal characters is substring
(infix) testing. -/
theorem rsearch_lit (w s : List Char) :
    rsearch (concatList (w.map Regex.chr)) s = true ↔ w <:+: s := by
  induction s with
  | nil =>
    simpa [rsearch, List.infix_nil, List.prefix_nil] using mstart_lit w []
  | cons c cs ih =>
    simp only [rsearch, Bool.or_eq_true, mstart_lit, ih, List.infix_cons_iff]

/-- A character outside `metachars` is consumed by the parser as a
literal atom. -/
theorem pstep_literal (st : PSt) (c : Char) (h : ¬ c ∈ metachars) :
    pstep st c = some ⟨st.alts, Regex.chr c :: st.cur, LK.atom⟩ := by
  simp only [metachars, List.mem_cons, List.not_mem_nil, or_false, not_or] at h
  obtain ⟨h1, h2, h3, h4, h5, h6, h7, h8, h9, h10, h11⟩ := h
  simp [pstep, h1, h2, h3, h4, h5, h6, h7, h8, h9, h10, h11]

/-- Running the parser over metacharacter-free input just accumulates
literal atoms. -/
theorem parseCore_literal (w : List Char) (st : PSt)
    (h : ∀ c ∈ w, ¬ c ∈ metachars) :
    parseCore w st =
      some (finishP ⟨st.alts, (w.map Regex.chr).reverse ++ st.cur, LK.atom⟩) := by
  induction w generalizing st with
  | nil => rfl
  | cons c w ih =>
    have hc : ¬ c ∈ metachars := h c (List.mem_cons_self c w)
    have hw : ∀ x ∈ w, ¬ x ∈ metachars := fun x hx => h x (List.mem_cons_of_mem c hx)
    simp only [parseCore, pstep_literal st c hc]
    rw [ih ⟨st.alts, Regex.chr c :: st.cur, LK.atom⟩ hw]
    simp

/-- A metacharacter-free pattern compiles to the concatenation of its
characters as literals. -/
theorem parsePat_literal (w : List Char) (h : ∀ c ∈ w, ¬ c ∈ metachars) :
    parsePat w = some (concatList (w.map Regex.chr)) := by
  rw [parsePat, parseCore_literal w _ h]
  simp [finishP, altList]

/-! ## Helper lemmas: deduplication, sorting, permutations -/

theorem mem_dedupFirstAux {α : Type} [DecidableEq α] (seen : List α) (l : List α)
    (x : α) : x ∈ dedupFirstAux seen l ↔ x ∈ l ∧ ¬ x ∈ seen := by
  induction l generalizing seen with
  | nil => simp [dedupFirstAux]
  | cons a l ih =>
    by_cases ha : a ∈ seen
    · rw [dedupFirstAux, if_pos ha, ih]
      constructor
      · exact fun ⟨h1, h2⟩ => ⟨List.mem_cons_of_mem a h1, h2⟩
      · rintro ⟨h1, h2⟩
        rcases List.mem_cons.mp h1 with h | h
        · exact absurd (h ▸ ha) h2
        · exact ⟨h, h2⟩
    · rw [dedupFirstAux, if_neg ha]
      simp only [List.mem_cons, ih, List.mem_cons, not_or]
      constructor
      · rintro (rfl | ⟨h1, h2, h3⟩)
        · exact ⟨Or.inl rfl, ha⟩
        · exact ⟨Or.inr h1, h3⟩
      · rintro ⟨rfl | h1, h2⟩
        · exact Or.inl rfl
        · by_cases hx : x = a
          · exact Or.inl hx
          · exact Or.inr ⟨h1, hx, h2⟩

theorem nodup_dedupFirstAux {α : Type} [DecidableEq α] (seen : List α)
    (l : List α) : (dedupFirstAux seen l).Nodup := by
  induction l generalizing seen with
  | nil => exact List.nodup_nil
  | cons a l ih =>
    by_cases ha : a ∈ seen
    · rw [dedupFirstAux, if_pos ha]; exact ih seen
    · rw [dedupFirstAux, if_neg ha]
      refine List.nodup_cons.mpr ⟨fun hmem => ?_, ih (a :: seen)⟩
      exact ((mem_dedupFirstAux _ _ _).mp hmem).2 (List.mem_cons_self a seen)

theorem mem_dedupFirst {α : Type} [DecidableEq α] (l : List α) (x : α) :
    x ∈ dedupFirst l ↔ x ∈ l := by
  rw [dedupFirst, mem_dedupFirstAux]
  simp

theorem nodup_dedupFirst {α : Type} [DecidableEq α] (l : List α) :
    (dedupFirst l).Nodup := nodup_dedupFirstAux [] l

/-- `dedupFirst` is an admissible enumeration of a Python set. -/
theorem isSetListFn_dedupFirst {α : Type} [DecidableEq α] :
    IsSetListFn (fun xs : List α => dedupFirst xs) :=
  fun xs => ⟨nodup_dedupFirst xs, fun a => mem_dedupFirst xs a⟩

/-- Reversing an admissible set enumeration gives another one. -/
theorem isSetListFn_rev {α : Type} [DecidableEq α] :
    IsSetListFn (fun xs : List α => (dedupFirst xs).reverse) :=
  fun xs => ⟨List.nodup_reverse.mpr (nodup_dedupFirst xs),
    fun a => by rw [List.mem_reverse, mem_dedupFirst]⟩

/-- Two admissible set enumerations of the same list are permutations of
one another. -/
theorem perm_of_setListFns {α : Type} {e1 e2 : List α → List α}
    (h1 : IsSetListFn e1) (h2 : IsSetListFn e2) (xs : List α) :
    (e1 xs).Perm (e2 xs) :=
  (List.perm_ext_iff_of_nodup (h1 xs).1 (h2 xs).1).mpr
    (fun a => ((h1 xs).2 a).trans ((h2 xs).2 a).symm)

theorem perm_any {α : Type} {l1 l2 : List α} (h : l1.Perm l2) (p : α → Bool) :
    l1.any p = l2.any p := by
  cases e1 : l1.any p <;> cases e2 : l2.any p <;> try rfl
  · rw [List.any_eq_false] at e1
    rw [List.any_eq_true] at e2
    obtain ⟨x, hx, hpx⟩ := e2
    exact absurd hpx (by simpa using e1 x (h.mem_iff.mpr hx))
  · rw [List.any_eq_true] at e1
    rw [List.any_eq_false] at e2
    obtain ⟨x, hx, hpx⟩ := e1
    exact absurd hpx (by simpa using e2 x (h.mem_iff.mp hx))

theorem perm_isEmpty {α : Type} {l1 l2 : List α} (h : l1.Perm l2) :
    l1.isEmpty = l2.isEmpty := by
  have hl : l1.length = l2.length := h.length_eq
  cases l1 <;> cases l2 <;> simp_all

instance : IsTotal ((String × String) × Nat) (fun a b => b.2 ≤ a.2) :=
  ⟨fun a b => Or.symm (Nat.le_total a.2 b.2)⟩

instance : IsTrans ((String × String) × Nat) (fun a b => b.2 ≤ a.2) :=
  ⟨fun _ _ _ hab hbc => Nat.le_trans hbc hab⟩

/-- Insertion sort by descending count is an admissible implementation
of `sort_values('tcount', ascending=False)`. -/
theorem isDescSortFn_sortDescPairs : IsDescSortFn sortDescPairs :=
  fun xs => ⟨List.perm_insertionSort _ xs, List.sorted_insertionSort _ xs⟩

/-- So is reversing first: ties then come out in the opposite order. -/
theorem isDescSortFn_revSort :
    IsDescSortFn (fun xs => sortDescPairs xs.reverse) :=
  fun xs => ⟨(List.perm_insertionSort _ xs.reverse).trans (List.reverse_perm xs),
    List.sorted_insertionSort _ xs.reverse⟩

/-! ## Helper lemmas: the rendered drug list and stage 1 -/

theorem pyInner_cons_ne_nil (a : String) (l : List String) :
    pyInner (a :: l) ≠ [] := by
  cases l <;> simp [pyInner, pyQuote]

/-- The rendered list is `'[]'` exactly for the empty list: the test
`output.Drugs != '[]'` is a test for at least one match. -/
theorem pyStrList_eq_brackets_iff (l : List String) :
    pyStrList l = "[]" ↔ l = [] := by
  cases l with
  | nil => exact ⟨fun _ => rfl, fun _ => by decide⟩
  | cons a l =>
    constructor
    · intro h
      have hd : ('[' :: pyInner (a :: l) ++ [']'] : List Char) = "[]".data :=
        congrArg String.data h
      have : (pyInner (a :: l) ++ [']'] : List Char) = [']'] := by
        simpa using hd
      have hlen := congrArg List.length this
      rw [List.length_append] at hlen
      have h0 : (pyInner (a :: l)).length = 0 := by
        simp only [List.length_cons, List.length_nil] at hlen
        omega
      exact absurd (List.length_eq_zero.mp h0) (pyInner_cons_ne_nil a l)
    · intro h; cases h

theorem writeDrugs_nct (drugs : List DrugRow) (t : TrialRow) :
    (writeDrugs drugs t).nct_id = t.nct_id := by
  rw [writeDrugs]; split <;> rfl

theorem writeDrugs_type (drugs : List DrugRow) (t : TrialRow) :
    (writeDrugs drugs t).intervention_type = t.intervention_type := by
  rw [writeDrugs]; split <;> rfl

theorem writeDrugs_name (drugs : List DrugRow) (t : TrialRow) :
    (writeDrugs drugs t).intervention_name = t.intervention_name := by
  rw [writeDrugs]; split <;> rfl

theorem writeDrugs_drug_row (drugs : List DrugRow) (t : TrialRow)
    (h : t.intervention_type = "Drug") :
    (writeDrugs drugs t).Drugs
      = some (pyStrList (matchTokens drugs t.intervention_name)) := by
  rw [writeDrugs, if_pos h]

/-- Stage 1, characterised over the *input* rows: keep exactly the
`'Drug'` rows with a nonempty match list, in order, and record their id
with their match list. -/
theorem stage1_eq (ct : List TrialRow) (drugs : List DrugRow) :
    match_drug_names ct drugs =
      ((ct.filter (fun t => t.intervention_type = "Drug")).filter
          (fun t => ¬ (matchTokens drugs t.intervention_name) = [])).map
        (fun t => ⟨t.nct_id, matchTokens drugs t.intervention_name⟩) := by
  induction ct with
  | nil => rfl
  | cons t ct ih =>
    simp only [match_drug_names, match_drug_names_table, List.map_cons,
      List.filter_filter, List.filter_cons, decide_not] at ih ⊢
    by_cases h : t.intervention_type = "Drug"
    · by_cases hm : matchTokens drugs t.intervention_name = []
      · simp [writeDrugs_type, h, writeDrugs_drug_row drugs t h, hm,
          pyStrList_eq_brackets_iff, ih]
      · simp [writeDrugs_type, h, writeDrugs_drug_row drugs t h, hm,
          pyStrList_eq_brackets_iff, writeDrugs_nct, writeDrugs_name, ih]
    · simp [writeDrugs_type, h, ih]

/-! ## Claims -/

/-- C6: a trial appears in the MatchedDrugs artifact iff its
`intervention_type` is `'Drug'` and at least one of its
intervention-name tokens matched a vocabulary entry; all other trials
are omitted entirely.  The output is exactly the `'Drug'` rows with a
nonempty match list, in input order, and a match list is nonempty iff
some token's lookup succeeded. -/
theorem c6_matched_drugs_iff (ct : List TrialRow) (drugs : List DrugRow) :
    match_drug_names ct drugs =
      ((ct.filter (fun t => t.intervention_type = "Drug")).filter
          (fun t => ¬ (matchTokens drugs t.intervention_name) = [])).map
        (fun t => ⟨t.nct_id, matchTokens drugs t.intervention_name⟩) ∧
    ∀ name : String, (¬ matchTokens drugs name = [] ↔
      ∃ tok ∈ tokensOf name, (lookupToken drugs tok).isSome) := by
  refine ⟨stage1_eq ct drugs, fun name => ?_⟩
  simp [matchTokens, List.filterMap_eq_nil_iff, Option.isSome_iff_ne_none]

/-- C2: when a token's pattern compiles and matches two or more
vocabulary rows, the name appended to the trial's drug list is the
`itemLabel` of the *last* matching row in vocabulary order
(`.values[-1]`), in the token's position in the accumulated list. -/
theorem c2_last_match_selected (drugs : List DrugRow) (name : String)
    (pre post : List (List Char)) (tok : List Char) (r : Regex)
    (h1 : tokensOf name = pre ++ tok :: post)
    (h2 : parsePat tok = some r)
    (h3 : 2 ≤ (drugs.filter (fun d => rsearch r d.altLabel_list.data)).length) :
    ∃ dlast : DrugRow,
      (drugs.filter (fun d => rsearch r d.altLabel_list.data)).getLast? = some dlast ∧
      matchTokens drugs name =
        pre.filterMap (lookupToken drugs) ++
          dlast.itemLabel :: post.filterMap (lookupToken drugs) := by
  have hne : ¬ drugs.filter (fun d => rsearch r d.altLabel_list.data) = [] := by
    intro e
    rw [e] at h3
    simp at h3
  obtain ⟨dlast, hd⟩ := Option.isSome_iff_exists.mp (List.getLast?_isSome.mpr hne)
  refine ⟨dlast, hd, ?_⟩
  have hlook : lookupToken drugs tok = some dlast.itemLabel := by
    simp [lookupToken, h2, hd]
  rw [matchTokens, h1, List.filterMap_append, List.filterMap_cons, hlook]

/-- Witness for C2: `'aspirin'` matches both vocabulary rows and the
second (last) one's canonical name is selected. -/
theorem c2_witness :
    matchTokens [⟨"First", "xaspirinx"⟩, ⟨"Second", "aspirin here"⟩] "aspirin"
      = ["Second"] := by
  obtain ⟨d, hd, he⟩ := c2_last_match_selected
    [⟨"First", "xaspirinx"⟩, ⟨"Second", "aspirin here"⟩] "aspirin" [] []
    "aspirin".data (concatList ("aspirin".data.map Regex.chr))
    (by decide) (by decide) (by decide)
  rw [he]
  have h2 : ([(⟨"First", "xaspirinx"⟩ : DrugRow), ⟨"Second", "aspirin here"⟩].filter
      (fun d => rsearch (concatList ("aspirin".data.map Regex.chr)) d.altLabel_list.data)).getLast?
      = some ⟨"Second", "aspirin here"⟩ := by decide
  rw [hd] at h2
  injection h2 with h
  rw [h]
  rfl

/-- C8: a token whose lookup raises (pattern-compile error or empty
selection) contributes nothing, and the rest of the trial's tokens are
still processed: the loop never aborts. -/
theorem c8_lookup_error_skips_token (drugs : List DrugRow) (name : String)
    (pre post : List (List Char)) (bad : List Char)
    (h1 : tokensOf name = pre ++ bad :: post)
    (h2 : lookupToken drugs bad = none) :
    matchTokens drugs name =
      pre.filterMap (lookupToken drugs) ++ post.filterMap (lookupToken drugs) := by
  rw [matchTokens, h1, List.filterMap_append, List.filterMap_cons, h2]

/-- Witness for C8: the middle token `'((('` fails to compile as a
regex; the trailing token is still processed. -/
theorem c8_witness :
    matchTokens [⟨"A", "xxaaaxx"⟩] "aaa ((( bbb" = ["A"] :=
  (c8_lookup_error_skips_token [⟨"A", "xxaaaxx"⟩] "aaa ((( bbb"
    ["aaa".data] ["bbb".data] "(((".data (by decide) (by decide)).trans (by decide)

/-- C10: splitting on a single space turns consecutive (or
leading/trailing) spaces into an empty token; the empty token is not a
stop word, compiles to the empty pattern, which matches every alt-label
text, so the last vocabulary row's canonical name is appended to the
trial's drug list and the trial reaches the output artifact. -/
theorem c10_empty_token_matches_last (ct : List TrialRow) (drugs : List DrugRow)
    (t : TrialRow) (dlast : DrugRow)
    (h1 : t ∈ ct) (h2 : t.intervention_type = "Drug")
    (h3 : ([] : List Char) ∈ splitSp t.intervention_name.data)
    (h4 : drugs.getLast? = some dlast) :
    ¬ ([] : List Char) ∈ ignoreL ∧
    lookupToken drugs [] = some dlast.itemLabel ∧
    ∃ e ∈ match_drug_names ct drugs, e.nct_id = t.nct_id ∧ dlast.itemLabel ∈ e.drugs := by
  have hig : ¬ ([] : List Char) ∈ ignoreL := by decide
  have hfilter : drugs.filter (fun d => rsearch Regex.eps d.altLabel_list.data) = drugs :=
    List.filter_eq_self.mpr (fun a _ => rsearch_eps a.altLabel_list.data)
  have hlook : lookupToken drugs [] = some dlast.itemLabel := by
    show ((drugs.filter
        (fun d => rsearch Regex.eps d.altLabel_list.data)).getLast?).map DrugRow.itemLabel
      = some dlast.itemLabel
    rw [hfilter, h4]
    rfl
  have htok : ([] : List Char) ∈ tokensOf t.intervention_name :=
    List.mem_filter.mpr ⟨h3, by decide⟩
  have hmem : dlast.itemLabel ∈ matchTokens drugs t.intervention_name :=
    List.mem_filterMap.mpr ⟨[], htok, hlook⟩
  have hne : ¬ matchTokens drugs t.intervention_name = [] := by
    intro e
    rw [e] at hmem
    exact absurd hmem (List.not_mem_nil _)
  refine ⟨hig, hlook, ⟨t.nct_id, matchTokens drugs t.intervention_name⟩, ?_, rfl, hmem⟩
  rw [stage1_eq]
  refine List.mem_map.mpr ⟨t, ?_, rfl⟩
  exact List.mem_filter.mpr ⟨List.mem_filter.mpr ⟨h1, decide_eq_true h2⟩, decide_eq_true hne⟩

/-- Witness for C10: the double space in `'q  r'` makes the last (only)
vocabulary entry `'Z'` match although neither real token does. -/
theorem c10_witness :
    ¬ ([] : List Char) ∈ ignoreL ∧
    ∃ e ∈ match_drug_names [⟨"N1", "Drug", "q  r", none⟩] [⟨"Z", "zz"⟩],
      e.nct_id = "N1" ∧ "Z" ∈ e.drugs := by
  obtain ⟨hig, _, hmem⟩ := c10_empty_token_matches_last
    [⟨"N1", "Drug", "q  r", none⟩] [⟨"Z", "zz"⟩] ⟨"N1", "Drug", "q  r", none⟩ ⟨"Z", "zz"⟩
    (by decide) rfl (by decide) rfl
  exact ⟨hig, hmem⟩

/-- C3: `description` resolves a matched stem by the ordered fallback:
first a row whose `name` ends with the stem (`type='class'` with that
row's definition), else a row whose `name` starts with it
(`type='class'`), else a row whose `stem` column ends with it
(`type='subclass'`); consequently, whenever any name-based row exists,
the result is class-level, never subclass. -/
theorem c3_fallback (usan_stems : List StemRow) (i : String) :
    (∀ row, (usan_stems.filter (fun x => optEndsWith x.name i)).head? = some row →
      description usan_stems i = some ⟨row.definition, "class"⟩) ∧
    ((usan_stems.filter (fun x => optEndsWith x.name i)) = [] →
     ∀ row, (usan_stems.filter (fun x => optStartsWith x.name i)).head? = some row →
      description usan_stems i = some ⟨row.definition, "class"⟩) ∧
    ((usan_stems.filter (fun x => optEndsWith x.name i)) = [] →
     (usan_stems.filter (fun x => optStartsWith x.name i)) = [] →
      description usan_stems i =
        ((usan_stems.filter (fun x => optEndsWith x.stem i)).head?).map
          (fun row => UsanCode.mk row.definition "subclass")) ∧
    (∀ row ∈ usan_stems, (optEndsWith row.name i || optStartsWith row.name i) = true →
      ∃ d, description usan_stems i = some (UsanCode.mk d "class")) := by
  refine ⟨?_, ?_, ?_, ?_⟩
  · intro row hrow
    simp [description, hrow]
  · intro h0 row hrow
    simp [description, h0, hrow]
  · intro h0 h1
    simp [description, h0, h1]
  · intro row hrowmem hor
    rcases Bool.or_eq_true_iff.mp hor with hE | hS
    · cases hh : (usan_stems.filter (fun x => optEndsWith x.name i)).head? with
      | none =>
        have : row ∈ usan_stems.filter (fun x => optEndsWith x.name i) :=
          List.mem_filter.mpr ⟨hrowmem, hE⟩
        rw [List.head?_eq_none_iff.mp hh] at this
        exact absurd this (List.not_mem_nil _)
      | some r2 => exact ⟨r2.definition, by simp [description, hh]⟩
    · cases hh : (usan_stems.filter (fun x => optEndsWith x.name i)).head? with
      | some r2 => exact ⟨r2.definition, by simp [description, hh]⟩
      | none =>
        cases hh2 : (usan_stems.filter (fun x => optStartsWith x.name i)).head? with
        | none =>
          have : row ∈ usan_stems.filter (fun x => optStartsWith x.name i) :=
            List.mem_filter.mpr ⟨hrowmem, hS⟩
          rw [List.head?_eq_none_iff.mp hh2] at this
          exact absurd this (List.not_mem_nil _)
        | some r2 => exact ⟨r2.definition, by simp [description, hh, hh2]⟩

/-- Witness for C3: the stem `'tan'` is present both in a
stem-definition row (`'-tan'`) and at the end of a different row's
naming-class name (`'biotan'`); the class-level resolution wins. -/
theorem c3_witness :
    description [⟨some "-tan", none, some "subdef"⟩,
        ⟨some "-x", some "biotan", some "classdef"⟩] "tan"
      = some ⟨some "classdef", "class"⟩ ∧
    optEndsWith (some "-tan") "tan" = true :=
  ⟨(c3_fallback [⟨some "-tan", none, some "subdef"⟩,
      ⟨some "-x", some "biotan", some "classdef"⟩] "tan").1
    ⟨some "-x", some "biotan", some "classdef"⟩ (by decide), by decide⟩

/-- C7 counterexample: matching is *regex* search on the preprocessed
label, not case-insensitive literal substring containment.  The token
`'a.c'` is not a literal substring of the label `'abc|X'` yet the trial
is matched (the dot is a wildcard); conversely the lower-cased label
text does contain `'x'`, yet the trial is not matched because the
appended canonical name keeps its original case. -/
theorem c7_counterexample :
    mainStage1 [⟨"N1", "Drug", "a.c", none⟩] [⟨"X", "abc"⟩] = [⟨"N1", ["X"]⟩] ∧
    ¬ "a.c".data <:+: (pyLower "abc" ++ "|" ++ "X").data ∧
    mainStage1 [⟨"N2", "Drug", "x", none⟩] [⟨"X", "zzz"⟩] = [] ∧
    "x".data <:+: (pyLower (pyLower "zzz" ++ "|" ++ "X")).data :=
  ⟨by decide, by decide, by decide, by decide⟩

/-- C7 amended: the per-token relation is Python-regex search of the
token over the preprocessed label text; for tokens free of regex
metacharacters it coincides with (case-sensitive) literal substring
containment, and the lookup then selects the last row containing the
token. -/
theorem c7_amended_literal_tokens (tok : List Char) (label : String)
    (h : ∀ c ∈ tok, ¬ c ∈ metachars) :
    ((∃ r, parsePat tok = some r ∧ rsearch r label.data = true) ↔ tok <:+: label.data) ∧
    ∀ drugs : List DrugRow, lookupToken drugs tok =
      ((drugs.filter (fun d => tok <:+: d.altLabel_list.data)).getLast?).map
        DrugRow.itemLabel := by
  have hpat : parsePat tok = some (concatList (tok.map Regex.chr)) :=
    parsePat_literal tok h
  have hbool : ∀ s : List Char,
      rsearch (concatList (tok.map Regex.chr)) s = decide (tok <:+: s) := by
    intro s
    by_cases hin : tok <:+: s
    · rw [(rsearch_lit tok s).mpr hin, decide_eq_true hin]
    · rw [decide_eq_false hin]
      cases hb : rsearch (concatList (tok.map Regex.chr)) s
      · rfl
      · exact absurd ((rsearch_lit tok s).mp hb) hin
  constructor
  · constructor
    · rintro ⟨r, hr, hs⟩
      rw [hpat] at hr
      injection hr with hr
      rw [← hr] at hs
      exact (rsearch_lit tok label.data).mp hs
    · intro hinf
      exact ⟨_, hpat, (rsearch_lit tok label.data).mpr hinf⟩
  · intro drugs
    have hfeq : drugs.filter (fun d => rsearch (concatList (tok.map Regex.chr)) d.altLabel_list.data)
        = drugs.filter (fun d => tok <:+: d.altLabel_list.data) :=
      List.filter_congr (fun d _ => hbool d.altLabel_list.data)
    simp [lookupToken, hpat, hfeq]

/-- Witness for C7 (amended): a metacharacter-free token behaves as
literal containment and selects the matching row. -/
theorem c7_amended_witness :
    lookupToken [⟨"A", "xx aspirin yy"⟩] "aspirin".data = some "A" ∧
    "aspirin".data <:+: "xx aspirin yy".data := by
  have H := c7_amended_literal_tokens "aspirin".data "xx aspirin yy" (by decide)
  exact ⟨(H.2 [⟨"A", "xx aspirin yy"⟩]).trans (by decide), by decide⟩

/-- C9 counterexample: the stage is *not* side-effect free on its
input: running it writes a rendered drug list into the `Drugs` column
of the caller's trial table, so the table observed after the stage
differs from the one passed in. -/
theorem c9_counterexample :
    ¬ match_drug_names_table [⟨"N1", "Drug", "a", none⟩] [⟨"A", "a"⟩]
        = [⟨"N1", "Drug", "a", none⟩] := by decide

/-- C9 amended: the mutation is confined to the `Drugs` column of
`'Drug'` rows: every row keeps its id, type and name, and every
non-`'Drug'` row is entirely unchanged. -/
theorem c9_amended_frame (ct : List TrialRow) (drugs : List DrugRow) :
    List.Forall₂ (fun t t2 : TrialRow =>
      t2.nct_id = t.nct_id ∧ t2.intervention_type = t.intervention_type ∧
      t2.intervention_name = t.intervention_name ∧
      (¬ t.intervention_type = "Drug" → t2 = t)) ct (match_drug_names_table ct drugs) := by
  induction ct with
  | nil => exact List.Forall₂.nil
  | cons t ct ih =>
    refine List.Forall₂.cons
      ⟨writeDrugs_nct drugs t, writeDrugs_type drugs t, writeDrugs_name drugs t, ?_⟩ ih
    intro h
    rw [writeDrugs, if_neg h]

/-- C4 counterexample: stage 2 flattens the matched drugs through
`list(set(...))`, whose enumeration order depends on string-hash
randomisation and so changes between interpreter runs.  Two admissible
enumerations of the same input produce record lists in different
orders, so re-running the stage on the same artifact need not
reproduce byte-identical output. -/
theorem c4_counterexample :
    IsSetListFn (fun xs : List String => dedupFirst xs) ∧
    IsSetListFn (fun xs : List String => (dedupFirst xs).reverse) ∧
    ¬ match_usan_codes (fun xs => dedupFirst xs) [⟨"N1", ["a", "b"]⟩]
        [⟨some "a", some "na", some "da"⟩, ⟨some "b", some "nb", some "db"⟩]
      = match_usan_codes (fun xs => (dedupFirst xs).reverse) [⟨"N1", ["a", "b"]⟩]
        [⟨some "a", some "na", some "da"⟩, ⟨some "b", some "nb", some "db"⟩] :=
  ⟨isSetListFn_dedupFirst, isSetListFn_rev, by decide⟩

/-- C4 amended: for a fixed set-enumeration order the stage is a pure
function of its input (re-running in the same process is byte
identical); across admissible enumeration orders the stage fails
identically, and when it succeeds the two outputs are permutations of
one another - the records are reproduced, but not their order. -/
theorem c4_amended_permutation (artifact : List MatchedDrugs)
    (usan_stems : List StemRow) (e1 e2 : List String → List String)
    (h1 : IsSetListFn e1) (h2 : IsSetListFn e2) :
    ((match_usan_codes e1 artifact usan_stems).isSome
      = (match_usan_codes e2 artifact usan_stems).isSome) ∧
    ∀ l1 l2, match_usan_codes e1 artifact usan_stems = some l1 →
      match_usan_codes e2 artifact usan_stems = some l2 → l1.Perm l2 := by
  have hperm : (e1 ((artifact.map MatchedDrugs.drugs).flatten)).Perm
      (e2 ((artifact.map MatchedDrugs.drugs).flatten)) :=
    perm_of_setListFns h1 h2 _
  simp only [match_usan_codes]
  by_cases hc1 : (e1 ((artifact.map MatchedDrugs.drugs).flatten)).isEmpty
      ∨ (strippedStems usan_stems).isEmpty
  · have hc2 : (e2 ((artifact.map MatchedDrugs.drugs).flatten)).isEmpty
        ∨ (strippedStems usan_stems).isEmpty := by
      rw [← perm_isEmpty hperm]
      exact hc1
    rw [if_pos hc1, if_pos hc2]
    exact ⟨rfl, fun l1 l2 hx _ => by cases hx⟩
  · have hc2 : ¬ ((e2 ((artifact.map MatchedDrugs.drugs).flatten)).isEmpty
        ∨ (strippedStems usan_stems).isEmpty) := by
      rw [← perm_isEmpty hperm]
      exact hc1
    rw [if_neg hc1, if_neg hc2]
    have ha1 := perm_any hperm (fun d =>
      (strippedStems usan_stems).any (fun i => (strContains i d).isNone))
    by_cases hb1 : (e1 ((artifact.map MatchedDrugs.drugs).flatten)).any
        (fun d => (strippedStems usan_stems).any (fun i => (strContains i d).isNone)) = true
    · rw [if_pos hb1, if_pos (ha1 ▸ hb1)]
      exact ⟨rfl, fun l1 l2 hx _ => by cases hx⟩
    · rw [if_neg hb1, if_neg (fun hx => hb1 (ha1 ▸ hx))]
      have ha2 := perm_any hperm (fun d =>
        (matchedStems (strippedStems usan_stems) d).any
          (fun i => (description usan_stems i).isNone))
      by_cases hb2 : (e1 ((artifact.map MatchedDrugs.drugs).flatten)).any
          (fun d => (matchedStems (strippedStems usan_stems) d).any
            (fun i => (description usan_stems i).isNone)) = true
      · rw [if_pos hb2, if_pos (ha2 ▸ hb2)]
        exact ⟨rfl, fun l1 l2 hx _ => by cases hx⟩
      · rw [if_neg hb2, if_neg (fun hx => hb2 (ha2 ▸ hx))]
        refine ⟨rfl, fun l1 l2 hx hy => ?_⟩
        injection hx with hx
        injection hy with hy
        rw [← hx, ← hy]
        exact (hperm.filter _).map _

/-- Witness for C4 (amended): the two concrete admissible enumerations
of the counterexample succeed together and yield permuted outputs. -/
theorem c4_amended_witness :
    ((match_usan_codes (fun xs => dedupFirst xs) [⟨"N1", ["a", "b"]⟩]
        [⟨some "a", some "na", some "da"⟩, ⟨some "b", some "nb", some "db"⟩]).isSome
      = (match_usan_codes (fun xs => (dedupFirst xs).reverse) [⟨"N1", ["a", "b"]⟩]
        [⟨some "a", some "na", some "da"⟩, ⟨some "b", some "nb", some "db"⟩]).isSome) ∧
    ∀ l1 l2, match_usan_codes (fun xs => dedupFirst xs) [⟨"N1", ["a", "b"]⟩]
        [⟨some "a", some "na", some "da"⟩, ⟨some "b", some "nb", some "db"⟩] = some l1 →
      match_usan_codes (fun xs => (dedupFirst xs).reverse) [⟨"N1", ["a", "b"]⟩]
        [⟨some "a", some "na", some "da"⟩, ⟨some "b", some "nb", some "db"⟩] = some l2 →
      l1.Perm l2 :=
  c4_amended_permutation [⟨"N1", ["a", "b"]⟩]
    [⟨some "a", some "na", some "da"⟩, ⟨some "b", some "nb", some "db"⟩]
    (fun xs => dedupFirst xs) (fun xs => (dedupFirst xs).reverse)
    isSetListFn_dedupFirst isSetListFn_rev

/-- C5 counterexample: the descending sort underlying stage 4 is
`sort_values` with its default unstable quicksort, so the relative
order of rows with equal `trial_count` is not determined by the code:
two admissible descending sorts produce the tied rows in opposite
orders on the same stage-3 artifact, so ties need not keep their
first-observed order. -/
theorem c5_counterexample :
    IsDescSortFn sortDescPairs ∧
    IsDescSortFn (fun xs => sortDescPairs xs.reverse) ∧
    agg_counts_of_usan_pairs dedupFirst sortDescPairs
      [⟨"A", "class", ["T1"]⟩, ⟨"B", "class", ["T1"]⟩,
       ⟨"C", "class", ["T2"]⟩, ⟨"D", "class", ["T2"]⟩]
      = some [⟨"A", "B", 1⟩, ⟨"C", "D", 1⟩] ∧
    agg_counts_of_usan_pairs dedupFirst (fun xs => sortDescPairs xs.reverse)
      [⟨"A", "class", ["T1"]⟩, ⟨"B", "class", ["T1"]⟩,
       ⟨"C", "class", ["T2"]⟩, ⟨"D", "class", ["T2"]⟩]
      = some [⟨"C", "D", 1⟩, ⟨"A", "B", 1⟩] :=
  ⟨isDescSortFn_sortDescPairs, isDescSortFn_revSort, by decide, by decide⟩

/-- C5 amended: whatever admissible enumeration and admissible
descending sort are used, the stage-4 output rows are sorted by
`trial_count` in descending order; the order of equal counts is
unspecified. -/
theorem c5_amended_sorted_desc (trials_by_usan : List Stage3Record)
    (enum : List (String × String) → List (String × String))
    (sortImpl : List ((String × String) × Nat) → List ((String × String) × Nat))
    (hs : IsDescSortFn sortImpl) (out : List ClassPairCount)
    (hout : agg_counts_of_usan_pairs enum sortImpl trials_by_usan = some out) :
    List.Sorted (fun a b : ClassPairCount => b.trial_count ≤ a.trial_count) out := by
  simp only [agg_counts_of_usan_pairs] at hout
  split at hout
  · cases hout
  · injection hout with hout
    rw [← hout]
    exact List.Pairwise.map _ (fun a b hab => hab) (hs _).2

/-- Witness for C5 (amended): a concrete run of stage 4 whose output is
sorted descending. -/
theorem c5_amended_witness :
    List.Sorted (fun a b : ClassPairCount => b.trial_count ≤ a.trial_count)
      [⟨"anticoagulant", "antiplatelet", 1⟩] :=
  c5_amended_sorted_desc
    [⟨"anticoagulant", "class", ["T1", "T2"]⟩, ⟨"antiplatelet", "class", ["T1", "T2"]⟩]
    dedupFirst sortDescPairs isDescSortFn_sortDescPairs
    [⟨"anticoagulant", "antiplatelet", 1⟩] (by decide)

/-- C1: stage 4 renders each record's whole trial list to a string
before `explode`, so `explode` is a no-op and grouping is by the
rendered trial-list string, not by trial.  Two class descriptions that
share the identical trial list `['T1', 'T2']` - i.e. co-occur in the
two distinct trials `T1` and `T2` - produce one pair row with
`trial_count` 1 (one group), not 2 (two trials); and two descriptions
that co-occur in `T1` but have different overall trial lists produce no
pair row at all. -/
theorem c1_groups_by_rendered_list :
    agg_counts_of_usan_pairs dedupFirst sortDescPairs
      [⟨"anticoagulant", "class", ["T1", "T2"]⟩, ⟨"antiplatelet", "class", ["T1", "T2"]⟩]
      = some [⟨"anticoagulant", "antiplatelet", 1⟩] ∧
    agg_counts_of_usan_pairs dedupFirst sortDescPairs
      [⟨"A", "class", ["T1"]⟩, ⟨"B", "class", ["T1", "T2"]⟩] = some [] :=
  ⟨by decide, by decide⟩
